import Mathlib

/-!
Verification development for the offline bus-offer analyzer (`analyzer.py`).

The analyzer consumes a table of scraped bus offers (rows of optional text
cells), parses each field into a canonical numeric value, substitutes
conservative defaults for missing values, min-max normalizes every scored
column, computes a weighted composite score and returns the best row.

This file shallowly embeds the analyzer: strings are `String`/`List Char`
(ASCII fragment of the Python regexes, which is what scraped data uses),
machine numbers are `Nat`, exact numeric computation uses `ℚ` (Python's
arbitrary-precision ints are exact; the float arithmetic of the score
pipeline is modelled exactly by rationals, which is faithful on every
claim settled here since none hinges on rounding), missing cells and
parse failures are `Option`.
-/

namespace VRL

/-! ## Character-level helpers (ASCII fragment of the Python string ops) -/

/-- Python regex a backslash-d class, ASCII range: codepoints 48-57. -/
def isDigitC (c : Char) : Bool := 48 ≤ c.toNat && c.toNat ≤ 57

/-- Numeric value of a digit character. -/
def digVal (c : Char) : Nat := c.toNat - 48

/-- Value of a digit run, as Python int() of the matched group. -/
def digitsVal (l : List Char) : Nat := l.foldl (fun a c => 10 * a + digVal c) 0

/-- Python whitespace class (ASCII): space, tab, newline, vertical tab,
form feed, carriage return. -/
def pyIsSpace (c : Char) : Bool :=
  c.toNat = 32 || c.toNat = 9 || c.toNat = 10 || c.toNat = 11 || c.toNat = 12 || c.toNat = 13

/-- Python str.upper on an ASCII character. -/
def pyUpperChar (c : Char) : Char :=
  if 97 ≤ c.toNat ∧ c.toNat ≤ 122 then Char.ofNat (c.toNat - 32) else c

/-- Python str.lower on an ASCII character. -/
def pyLowerChar (c : Char) : Char :=
  if 65 ≤ c.toNat ∧ c.toNat ≤ 90 then Char.ofNat (c.toNat + 32) else c

/-- Python str.strip: remove leading and trailing whitespace. -/
def pyStrip (l : List Char) : List Char :=
  ((l.dropWhile pyIsSpace).reverse.dropWhile pyIsSpace).reverse

/-- Skip a regex backslash-s-star: drop any run of whitespace. -/
def dropSpaces (l : List Char) : List Char := l.dropWhile pyIsSpace

/-! ## `_to_int` — first digit run with optional thousands separators -/

/-- Python `re.search` of one-or-more digits then comma-or-digit-star on a
char list: finds the leftmost digit, takes the maximal run of digits and
commas from there, strips commas, and reads the number
(`_to_int`, analyzer.py lines 19-28). -/
def toIntL : List Char → Option Nat
  | [] => none
  | c :: rest =>
    if isDigitC c then
      some (digitsVal ((c :: rest.takeWhile (fun d => isDigitC d || d = ',')).filter isDigitC))
    else toIntL rest

/-- `_to_int` on an optional cell: missing input stays missing. -/
def toInt : Option String → Option Nat
  | none => none
  | some s => toIntL s.data

/-! ## `_to_float_rating` — first decimal-or-integer numeral -/

/-- Python regex digits-then-optional-fraction searched leftmost: the first
digit run, with a fractional digit run when a dot with at least one digit
follows (`_to_float_rating`, analyzer.py lines 30-40).  The Python float is
modelled as the exact rational. -/
def toRatL : List Char → Option ℚ
  | [] => none
  | c :: rest =>
    if isDigitC c then
      let ip := c :: rest.takeWhile isDigitC
      match rest.dropWhile isDigitC with
      | '.' :: r2 =>
        let fp := r2.takeWhile isDigitC
        if fp = [] then some ((digitsVal ip : ℚ))
        else some ((digitsVal ip : ℚ) + (digitsVal fp : ℚ) / ((10 : ℚ) ^ fp.length))
      | _ => some ((digitsVal ip : ℚ))
    else toRatL rest

/-- `_to_float_rating` on an optional cell. -/
def toRating : Option String → Option ℚ
  | none => none
  | some s => toRatL s.data

/-! ## `_time_to_minutes` — clock-time extraction (analyzer.py lines 42-71)

The three regex alternatives are anchored full matches on the stripped,
upper-cased, dot-free input.  A one-or-two digit field is a maximal digit
run of length 1 or 2 (a third digit makes the whole anchored pattern fail,
since a digit can continue neither the separator, the AM/PM marker nor the
end anchor); an exactly-two / exactly-four digit field likewise forces the
maximal run to have exactly that length. -/

/-- Regex field of one or two digits (greedy, anchored context). -/
def take2Digits (l : List Char) : Option (Nat × List Char) :=
  match l.takeWhile isDigitC with
  | [c] => some (digitsVal [c], l.dropWhile isDigitC)
  | [c1, c2] => some (digitsVal [c1, c2], l.dropWhile isDigitC)
  | _ => none

/-- Regex field of exactly two digits (anchored context). -/
def takeExactly2 (l : List Char) : Option (Nat × List Char) :=
  match l.takeWhile isDigitC with
  | [c1, c2] => some (digitsVal [c1, c2], l.dropWhile isDigitC)
  | _ => none

/-- Regex field of exactly two plus exactly two digits (anchored context). -/
def takeExactly4 (l : List Char) : Option (Nat × Nat × List Char) :=
  match l.takeWhile isDigitC with
  | [c1, c2, c3, c4] => some (digitsVal [c1, c2], digitsVal [c3, c4], l.dropWhile isDigitC)
  | _ => none

/-- The two sequential 12-hour adjustments of `_time_to_minutes`:
PM adds 12 unless the hour is 12; AM turns hour 12 into 0. -/
def applyAmPm (hh : Nat) (ampm : Option Char) : Nat :=
  if ampm = some 'P' ∧ hh ≠ 12 then hh + 12
  else if ampm = some 'A' ∧ hh = 12 then 0
  else hh

/-- End of an anchored pattern: optional whitespace then end of string. -/
def isEnd (l : List Char) : Prop := dropSpaces l = []

instance (l : List Char) : Decidable (isEnd l) := by unfold isEnd; infer_instance

/-- Optional AM/PM marker followed by the end anchor; the input was already
upper-cased.  Yields the marker parsed, or no-match. -/
def parseAmPmEnd (l : List Char) : Option (Option Char) :=
  match l with
  | 'A' :: 'M' :: r => if isEnd r then some (some 'A') else none
  | 'P' :: 'M' :: r => if isEnd r then some (some 'P') else none
  | _ => if isEnd l then some none else none

/-- First alternative of `_time_to_minutes`: one-or-two digit hour,
optional spaces, colon or dash, optional spaces, two-digit minute,
optional spaces, optional AM/PM, end. -/
def matchP1 (l : List Char) : Option Nat :=
  match take2Digits (dropSpaces l) with
  | none => none
  | some (hh, r1) =>
    match dropSpaces r1 with
    | c :: r3 =>
      if c = ':' ∨ c = '-' then
        match takeExactly2 (dropSpaces r3) with
        | none => none
        | some (mm, r5) =>
          match parseAmPmEnd (dropSpaces r5) with
          | none => none
          | some ampm => some (applyAmPm hh ampm * 60 + mm)
      else none
    | [] => none

/-- Second alternative: bare one-or-two digit hour with a mandatory AM/PM
marker; minutes are zero. -/
def matchP2 (l : List Char) : Option Nat :=
  match take2Digits (dropSpaces l) with
  | none => none
  | some (hh, r1) =>
    match dropSpaces r1 with
    | 'A' :: 'M' :: r3 => if isEnd r3 then some (applyAmPm hh (some 'A') * 60) else none
    | 'P' :: 'M' :: r3 => if isEnd r3 then some (applyAmPm hh (some 'P') * 60) else none
    | _ => none

/-- Third alternative: the four-digit HHMM fallback. -/
def matchP3 (l : List Char) : Option Nat :=
  match takeExactly4 (dropSpaces l) with
  | none => none
  | some (hh, mm, r1) => if isEnd r1 then some (hh * 60 + mm) else none

/-- The three alternatives in the priority order of the source. -/
def timeCore (s : List Char) : Option Nat :=
  match matchP1 s with
  | some v => some v
  | none =>
    match matchP2 s with
    | some v => some v
    | none => matchP3 s

/-- `_time_to_minutes`: strip, reject empty, upper-case and delete dots,
then try the three patterns. -/
def timeToMinutes : Option String → Option Nat
  | none => none
  | some t =>
    let s := pyStrip t.data
    if s = [] then none
    else timeCore ((s.map pyUpperChar).filter (fun c => c ≠ '.'))

/-! ## `_duration_to_minutes` (analyzer.py lines 73-96) -/

/-- Does a digits-then-optional-spaces-then-unit match start at the head of
the list?  Greedy digit run, then the whitespace run, then the unit char. -/
def unitCand (u : Char) (l : List Char) : Option Nat :=
  match l.takeWhile isDigitC with
  | [] => none
  | run =>
    if (dropSpaces (l.dropWhile isDigitC)).head? = some u then some (digitsVal run)
    else none

/-- Python `re.search` of one-or-more digits, optional spaces, then the
unit character: leftmost match wins (a start inside a digit run reaches
the same continuation, so head-first scanning is the leftmost semantics). -/
def searchUnit (u : Char) : List Char → Option Nat
  | [] => none
  | c :: rest =>
    match unitCand u (c :: rest) with
    | some v => some v
    | none => searchUnit u rest

/-- The `H:MM` / `H-MM` colon-dash fallback of `_duration_to_minutes`:
anchored, no whitespace tolerance, one-or-two digit hours, exactly two
digit minutes, end. -/
def matchColon (l : List Char) : Option Nat :=
  match take2Digits l with
  | none => none
  | some (hh, r1) =>
    match r1 with
    | c :: r2 =>
      if c = ':' ∨ c = '-' then
        match takeExactly2 r2 with
        | none => none
        | some (mm, r3) => if r3 = [] then some (hh * 60 + mm) else none
      else none
    | [] => none

/-- Python `re.search` of one-or-more digits: the leftmost maximal digit
run, used as the bare-number fallback. -/
def firstDigitRun : List Char → Option Nat
  | [] => none
  | c :: rest =>
    if isDigitC c then some (digitsVal (c :: rest.takeWhile isDigitC))
    else firstDigitRun rest

/-- Core of `_duration_to_minutes` on the stripped lower-cased text:
h-component and m-component summed when either is present, else the
colon-dash form, else a bare number read as hours when at most 24 and as
minutes otherwise. -/
def durCore (s : List Char) : Option Nat :=
  let mh := searchUnit 'h' s
  let mm := searchUnit 'm' s
  if mh.isSome || mm.isSome then some (mh.getD 0 * 60 + mm.getD 0)
  else
    match matchColon s with
    | some v => some v
    | none => (firstDigitRun s).map (fun v => if v ≤ 24 then v * 60 else v)

/-- `_duration_to_minutes`: strip and lower-case, reject empty, then the
fallback chain. -/
def durationToMinutes : Option String → Option Nat
  | none => none
  | some d =>
    let s := (pyStrip d.data).map pyLowerChar
    if s = [] then none else durCore s

/-! ## The offer table

One row of the scraped table.  A column that is absent from the CSV is
injected by the source as an all-missing column (analyzer.py lines
135-138), so a missing column is the row-wise `none` cell here.  Cells are
the textual form of whatever `pandas` read (numbers print back to their
digits, so text cells model both). -/

structure RawOffer where
  busName : Option String
  price : Option String
  rating : Option String
  windowSeats : Option String
  seatsAvailable : Option String
  boardingTime : Option String
  duration : Option String
  droppingTime : Option String
  bookingLink : Option String
deriving DecidableEq, Repr

/-! ## Column extraction and missing-data substitution
(analyzer.py lines 140-168) -/

/-- Maximum of the present values of a column (`Series.max(skipna=True)`);
`none` when every value is missing. -/
def maxObs : List (Option Nat) → Option Nat
  | [] => none
  | none :: rest => maxObs rest
  | some v :: rest =>
    match maxObs rest with
    | none => some v
    | some m => some (max v m)

/-- Minimum of the present rationals of a column (skipna). -/
def minObsQ : List (Option ℚ) → Option ℚ
  | [] => none
  | none :: rest => minObsQ rest
  | some v :: rest =>
    match minObsQ rest with
    | none => some v
    | some m => some (min v m)

/-- Maximum of the present rationals of a column (skipna). -/
def maxObsQ : List (Option ℚ) → Option ℚ
  | [] => none
  | none :: rest => maxObsQ rest
  | some v :: rest =>
    match maxObsQ rest with
    | none => some v
    | some m => some (max v m)

/-- Missing price becomes 1.5 times the maximum observed price, the
maximum defaulting to 999999 when no price parses (lines 150-152). -/
def fillPrice (l : List (Option Nat)) : List ℚ :=
  let mp : Nat := (maxObs l).getD 999999
  l.map fun x =>
    match x with
    | some v => (v : ℚ)
    | none => (mp : ℚ) * (3 / 2)

/-- Missing rating becomes the minimum observed rating, or 0.0 when no
rating parses at all (lines 154-157). -/
def fillRating (l : List (Option ℚ)) : List ℚ :=
  match minObsQ l with
  | none => l.map fun _ => 0
  | some mn => l.map fun x => x.getD mn

/-- Missing window-seat and seat counts become zero (lines 159-160). -/
def fillZero (l : List (Option Nat)) : List ℚ :=
  l.map fun x => ((x.getD 0 : Nat) : ℚ)

/-- Missing duration becomes 1.5 times the maximum observed duration, the
maximum defaulting to 9999 when none parses (lines 162-164). -/
def fillDur (l : List (Option Nat)) : List ℚ :=
  let md : Nat := (maxObs l).getD 9999
  l.map fun x =>
    match x with
    | some v => (v : ℚ)
    | none => (md : ℚ) * (3 / 2)

/-- Missing boarding time becomes the maximum observed boarding time plus
60, the maximum defaulting to 24*60 when none parses (lines 166-168). -/
def fillBoard (l : List (Option Nat)) : List ℚ :=
  let mb : Nat := (maxObs l).getD 1440
  l.map fun x =>
    match x with
    | some v => (v : ℚ)
    | none => (mb : ℚ) + 60

/-! ## `_normalize_series` (analyzer.py lines 99-109) -/

/-- `Series.clip(0.0, 1.0)`. -/
def clip01 (x : ℚ) : ℚ := max 0 (min 1 x)

/-- `_normalize_series`: the neutral 1/2 for an all-missing column and for
a column whose present minimum equals its present maximum; otherwise
min-max rescaling, optional inversion, clipping to the unit interval, and
1/2 for any remaining missing entry (the fillna after the clip). -/
def normalizeSeries (s : List (Option ℚ)) (invert : Bool) : List ℚ :=
  match minObsQ s, maxObsQ s with
  | some mn, some mx =>
    if mx = mn then s.map fun _ => (1 : ℚ) / 2
    else
      s.map fun x =>
        match x with
        | none => (1 : ℚ) / 2
        | some v => clip01 (if invert then 1 - (v - mn) / (mx - mn) else (v - mn) / (mx - mn))
  | _, _ => s.map fun _ => (1 : ℚ) / 2

/-! ## Dropping-time preference (analyzer.py lines 170-198) -/

/-- Ideal window start, 06:30 as minutes since midnight. -/
def IDEAL_START : Nat := 6 * 60 + 30

/-- Ideal window end, 09:00 as minutes since midnight. -/
def IDEAL_END : Nat := 9 * 60

/-- Does any offer's parsed dropping time lie in the inclusive ideal
window (line 175)? -/
def hasInWindow (drops : List (Option Nat)) : Bool :=
  drops.any fun x =>
    match x with
    | some v => decide (IDEAL_START ≤ v ∧ v ≤ IDEAL_END)
    | none => false

/-- `drop_score_val` (lines 179-187): missing scores 0.0, inside the
window scores 1.0, otherwise 1 minus distance-to-nearest-boundary over
720, floored at 0. -/
def dropScoreVal (x : Option Nat) : ℚ :=
  match x with
  | none => 0
  | some v =>
    if IDEAL_START ≤ v ∧ v ≤ IDEAL_END then 1
    else
      max 0 (1 - (min |(v : ℚ) - (IDEAL_START : Nat)| |(v : ℚ) - (IDEAL_END : Nat)|) / 720)

/-- `_drop_pref` (lines 177-198): window mode maps `drop_score_val` over
the column; otherwise missing dropping times are imputed as the observed
maximum (defaulting to 24*60) plus 120, and the column is min-max
normalized inverted so earlier is higher. -/
def dropPrefCol (drops : List (Option Nat)) : List ℚ :=
  if hasInWindow drops then drops.map dropScoreVal
  else
    let md : Nat := (maxObs drops).getD 1440
    normalizeSeries ((drops.map fun x => ((x.getD (md + 120) : Nat) : ℚ)).map some) true

/-! ## Weights (analyzer.py lines 113-127 and 210-218) -/

/-- The module's `default_weights` dictionary, looked up by key. -/
def defaultWeights : String → Option ℚ := fun k =>
  if k = "price" then some 3
  else if k = "rating" then some 2
  else if k = "window" then some 1
  else if k = "seats" then some (3 / 5)
  else if k = "duration" then some 1
  else if k = "boarding" then some (1 / 5)
  else if k = "dropping_pref" then some (11 / 10)
  else none

/-- Effective weight of a key: with no caller weights the defaults are
used as-is; with caller weights the dicts are merged, the caller's entry
winning, and `weights.get(k, 1.0)` reads the merged dict with final
fallback 1.0. -/
def mergedGet (ov : Option (String → Option ℚ)) (k : String) : ℚ :=
  match ov with
  | none => (defaultWeights k).getD 1
  | some o => ((o k).orElse fun _ => defaultWeights k).getD 1

/-! ## Score pipeline (analyzer.py lines 200-230) -/

/-- Parsed price column. -/
def priceCol (df : List RawOffer) : List (Option Nat) := df.map fun r => toInt r.price

/-- Parsed rating column. -/
def ratingCol (df : List RawOffer) : List (Option ℚ) := df.map fun r => toRating r.rating

/-- Parsed window-seat count column. -/
def windowCol (df : List RawOffer) : List (Option Nat) := df.map fun r => toInt r.windowSeats

/-- Parsed available-seat count column. -/
def seatsCol (df : List RawOffer) : List (Option Nat) := df.map fun r => toInt r.seatsAvailable

/-- Parsed boarding-time column. -/
def boardCol (df : List RawOffer) : List (Option Nat) := df.map fun r => timeToMinutes r.boardingTime

/-- Parsed duration column. -/
def durCol (df : List RawOffer) : List (Option Nat) := df.map fun r => durationToMinutes r.duration

/-- Parsed dropping-time column. -/
def dropCol (df : List RawOffer) : List (Option Nat) := df.map fun r => timeToMinutes r.droppingTime

/-- Normalized price criterion: filled, min-max rescaled, inverted. -/
def priceNormCol (df : List RawOffer) : List ℚ :=
  normalizeSeries ((fillPrice (priceCol df)).map some) true

/-- Normalized rating criterion. -/
def ratingNormCol (df : List RawOffer) : List ℚ :=
  normalizeSeries ((fillRating (ratingCol df)).map some) false

/-- Normalized window-seat criterion. -/
def windowNormCol (df : List RawOffer) : List ℚ :=
  normalizeSeries ((fillZero (windowCol df)).map some) false

/-- Normalized available-seat criterion. -/
def seatsNormCol (df : List RawOffer) : List ℚ :=
  normalizeSeries ((fillZero (seatsCol df)).map some) false

/-- Normalized duration criterion: inverted, shorter is better. -/
def durNormCol (df : List RawOffer) : List ℚ :=
  normalizeSeries ((fillDur (durCol df)).map some) true

/-- Normalized boarding-time criterion: inverted, earlier is better. -/
def boardNormCol (df : List RawOffer) : List ℚ :=
  normalizeSeries ((fillBoard (boardCol df)).map some) true

/-- The dropping preference re-normalized through the standard min-max
step without inversion (line 207). -/
def dropNormCol (df : List RawOffer) : List ℚ :=
  normalizeSeries ((dropPrefCol (dropCol df)).map some) false

/-- Pointwise sum of two score columns (pandas Series addition). -/
def addQ (a b : List ℚ) : List ℚ := List.zipWith (· + ·) a b

/-- A score column scaled by a weight. -/
def scaleQ (w : ℚ) (l : List ℚ) : List ℚ := l.map fun x => w * x

/-- The composite score column (lines 210-218): the weighted sum of the
seven normalized criterion columns. -/
def scoreList (df : List RawOffer) (ov : Option (String → Option ℚ)) : List ℚ :=
  addQ (scaleQ (mergedGet ov "price") (priceNormCol df))
    (addQ (scaleQ (mergedGet ov "rating") (ratingNormCol df))
      (addQ (scaleQ (mergedGet ov "window") (windowNormCol df))
        (addQ (scaleQ (mergedGet ov "seats") (seatsNormCol df))
          (addQ (scaleQ (mergedGet ov "duration") (durNormCol df))
            (addQ (scaleQ (mergedGet ov "boarding") (boardNormCol df))
              (scaleQ (mergedGet ov "dropping_pref") (dropNormCol df)))))))

/-- Index of the first maximal score.  This models
`sort_values(ascending=False)` followed by `iloc[0]`: any descending sort
puts a maximal score first; among several equal maximal scores the
library's default quicksort leaves the choice unspecified, and the first
occurrence is taken as representative (no settled claim depends on the
order among tied scores). -/
def bestIndexGo (best : ℚ) (bi i : Nat) : List ℚ → Nat
  | [] => bi
  | x :: rest =>
    if best < x then bestIndexGo x i (i + 1) rest else bestIndexGo best bi (i + 1) rest

/-- Index of the first maximal element of a score column. -/
def bestIndex : List ℚ → Nat
  | [] => 0
  | x :: rest => bestIndexGo x 0 1 rest

/-- The all-missing row, used as an out-of-range default. -/
def emptyOffer : RawOffer :=
  ⟨none, none, none, none, none, none, none, none, none⟩

/-- `pick_best_bus` (lines 111-230): `None` for a structurally empty
table, else the top-scored row together with its composite score. -/
def pickBestBus (df : List RawOffer) (ov : Option (String → Option ℚ)) :
    Option (RawOffer × ℚ) :=
  match df with
  | [] => none
  | _ :: _ =>
    let sc := scoreList df ov
    let i := bestIndex sc
    some (df.getD i emptyOffer, sc.getD i 0)

/-! ## Statements of the specification, for refinement comparison -/

/-- The window-mode preference score exactly as the specification words
it: 1.0 inside the inclusive window [390, 540], otherwise
`max(0, 1 - dist/720)` with dist the minutes to the nearest window
boundary, and 0.0 for an unparsed dropping time. -/
def specWindowScore (x : Option Nat) : ℚ :=
  match x with
  | none => 0
  | some v =>
    if 390 ≤ v ∧ v ≤ 540 then 1
    else max 0 (1 - (min |(v : ℚ) - 390| |(v : ℚ) - 540|) / 720)

/-- The seven weight keys the code actually consults. -/
def criterionKeys : List String :=
  ["price", "rating", "window", "seats", "duration", "boarding", "dropping_pref"]

/-- Sum of the seven effective weights. -/
def weightSum (ov : Option (String → Option ℚ)) : ℚ :=
  mergedGet ov "price" + mergedGet ov "rating" + mergedGet ov "window" +
    mergedGet ov "seats" + mergedGet ov "duration" + mergedGet ov "boarding" +
    mergedGet ov "dropping_pref"

/-- A weight configuration is non-negative when every entry it carries is
non-negative. -/
def NonnegOv : Option (String → Option ℚ) → Prop
  | none => True
  | some o => ∀ k v, o k = some v → 0 ≤ v

/-- A one-row table carrying only a price. -/
def oneRowOffer : RawOffer :=
  ⟨none, some "500", none, none, none, none, none, none, none⟩

/-- Two-row table whose rows differ only in window seats. -/
def twoRowTable : List RawOffer :=
  [⟨none, some "100", none, some "5", none, none, none, none, none⟩,
   ⟨none, some "100", none, some "0", none, none, none, none, none⟩]

/-- Override keyed by the specification name for the window-seat weight. -/
def ovWindowSeats0 : String → Option ℚ := fun k => if k = "window_seats" then some 0 else none

/-- Override keyed by the code name for the window-seat weight. -/
def ovWindow0 : String → Option ℚ := fun k => if k = "window" then some 0 else none

/-- Render a two-digit zero-padded field. -/
def pad2 (n : Nat) : List Char := [Char.ofNat (48 + n / 10), Char.ofNat (48 + n % 10)]

/-- Render a 24-hour HH:MM clock string. -/
def mkHHMM (hh mm : Nat) : String := String.mk (pad2 hh ++ ':' :: pad2 mm)

/-! ## Helper lemmas -/

theorem digVal_le {c : Char} (h : isDigitC c = true) : digVal c ≤ 9 := by
  simp only [isDigitC, Bool.and_eq_true, decide_eq_true_eq] at h
  unfold digVal
  omega

theorem mem_takeWhile_pred {α : Type _} {p : α → Bool} :
    ∀ (l : List α) (c : α), c ∈ l.takeWhile p → p c = true := by
  intro l
  induction l with
  | nil => simp [List.takeWhile]
  | cons a t ih =>
    intro c h
    rw [List.takeWhile_cons] at h
    split at h
    · rcases List.mem_cons.1 h with h1 | h2
      · subst h1; assumption
      · exact ih c h2
    · simp at h

theorem digitsVal_one_le {c : Char} (h : isDigitC c = true) : digitsVal [c] ≤ 9 := by
  have := digVal_le h
  simp only [digitsVal, List.foldl]
  omega

theorem digitsVal_two_le {c1 c2 : Char} (h1 : isDigitC c1 = true)
    (h2 : isDigitC c2 = true) : digitsVal [c1, c2] ≤ 99 := by
  have := digVal_le h1
  have := digVal_le h2
  simp only [digitsVal, List.foldl]
  omega

theorem take2Digits_le {l r : List Char} {v : Nat}
    (h : take2Digits l = some (v, r)) : v ≤ 99 := by
  unfold take2Digits at h
  split at h
  · next c heq =>
    obtain ⟨rfl, rfl⟩ : digitsVal [c] = v ∧ l.dropWhile isDigitC = r := by
      simpa using h
    have hc : isDigitC c = true :=
      mem_takeWhile_pred l c (by rw [heq]; exact List.mem_singleton.2 rfl)
    have := digitsVal_one_le hc
    omega
  · next c1 c2 heq =>
    obtain ⟨rfl, rfl⟩ : digitsVal [c1, c2] = v ∧ l.dropWhile isDigitC = r := by
      simpa using h
    have hc1 : isDigitC c1 = true :=
      mem_takeWhile_pred l c1 (by rw [heq]; simp)
    have hc2 : isDigitC c2 = true :=
      mem_takeWhile_pred l c2 (by rw [heq]; simp)
    exact digitsVal_two_le hc1 hc2
  · exact absurd h (by simp)

theorem takeExactly2_le {l r : List Char} {v : Nat}
    (h : takeExactly2 l = some (v, r)) : v ≤ 99 := by
  unfold takeExactly2 at h
  split at h
  · next c1 c2 heq =>
    obtain ⟨rfl, rfl⟩ : digitsVal [c1, c2] = v ∧ l.dropWhile isDigitC = r := by
      simpa using h
    exact digitsVal_two_le
      (mem_takeWhile_pred l c1 (by rw [heq]; simp))
      (mem_takeWhile_pred l c2 (by rw [heq]; simp))
  · exact absurd h (by simp)

theorem takeExactly4_le {l r : List Char} {v w : Nat}
    (h : takeExactly4 l = some (v, w, r)) : v ≤ 99 ∧ w ≤ 99 := by
  unfold takeExactly4 at h
  split at h
  · next c1 c2 c3 c4 heq =>
    obtain ⟨rfl, rfl, rfl⟩ :
        digitsVal [c1, c2] = v ∧ digitsVal [c3, c4] = w ∧ l.dropWhile isDigitC = r := by
      simpa using h
    constructor
    · exact digitsVal_two_le
        (mem_takeWhile_pred l c1 (by rw [heq]; simp))
        (mem_takeWhile_pred l c2 (by rw [heq]; simp))
    · exact digitsVal_two_le
        (mem_takeWhile_pred l c3 (by rw [heq]; simp))
        (mem_takeWhile_pred l c4 (by rw [heq]; simp))
  · exact absurd h (by simp)

theorem applyAmPm_le {hh : Nat} (h : hh ≤ 99) (a : Option Char) :
    applyAmPm hh a ≤ 111 := by
  unfold applyAmPm
  split
  · omega
  · split <;> omega

theorem matchP1_le {l : List Char} {n : Nat} (h : matchP1 l = some n) : n ≤ 6759 := by
  unfold matchP1 at h
  split at h
  · exact absurd h (by simp)
  · next hh r1 heq =>
    split at h
    · split at h
      · split at h
        · exact absurd h (by simp)
        · next mm r5 heq2 =>
          split at h
          · exact absurd h (by simp)
          · next ampm heq3 =>
            have hhh := take2Digits_le heq
            have hmm := takeExactly2_le heq2
            have := applyAmPm_le hhh ampm
            have hn : applyAmPm hh ampm * 60 + mm = n := by simpa using h
            omega
      · exact absurd h (by simp)
    · exact absurd h (by simp)

theorem matchP2_le {l : List Char} {n : Nat} (h : matchP2 l = some n) : n ≤ 6759 := by
  unfold matchP2 at h
  split at h
  · exact absurd h (by simp)
  · next hh r1 heq =>
    have hhh := take2Digits_le heq
    split at h
    · split at h
      · have := applyAmPm_le hhh (some 'A')
        have hn : applyAmPm hh (some 'A') * 60 = n := by simpa using h
        omega
      · exact absurd h (by simp)
    · split at h
      · have := applyAmPm_le hhh (some 'P')
        have hn : applyAmPm hh (some 'P') * 60 = n := by simpa using h
        omega
      · exact absurd h (by simp)
    · exact absurd h (by simp)

theorem matchP3_le {l : List Char} {n : Nat} (h : matchP3 l = some n) : n ≤ 6759 := by
  unfold matchP3 at h
  split at h
  · exact absurd h (by simp)
  · next hh mm r1 heq =>
    obtain ⟨h1, h2⟩ := takeExactly4_le heq
    split at h
    · have hn : hh * 60 + mm = n := by simpa using h
      omega
    · exact absurd h (by simp)

theorem timeCore_le {s : List Char} {n : Nat} (h : timeCore s = some n) : n ≤ 6759 := by
  unfold timeCore at h
  split at h
  · next heq => exact matchP1_le (heq.trans h)
  · split at h
    · next heq => exact matchP2_le (heq.trans h)
    · exact matchP3_le h

/-! ## Claim C4 -/

/-- C4, counterexample: the claim says clock-time extraction never
returns a value outside [0, 1439], but the 4-digit HHMM fallback performs
no range check: the input 9999 parses to 99*60+99 = 6039 minutes. -/
theorem c4_time_range_counterexample :
    timeToMinutes (some "9999") = some 6039 ∧ ¬(6039 ≤ 1439) := by
  constructor
  · rfl
  · decide

/-- C4, amended: for every input, clock-time extraction either returns
no-value or a minutes value bounded by 6759 (realized by 99:99 PM); hour
fields up to 99 and minute fields up to 99 pass the patterns unchecked,
so values above 1439 are possible. -/
theorem c4_time_range_amended (t : Option String) (n : Nat)
    (h : timeToMinutes t = some n) : n ≤ 6759 := by
  match t with
  | none => exact absurd h (by simp [timeToMinutes])
  | some s =>
    by_cases hs : pyStrip s.data = []
    · simp [timeToMinutes, hs] at h
    · exact timeCore_le (show timeCore _ = some n by simpa [timeToMinutes, hs] using h)

/-- C4, witness for the amended bound at a concrete input. -/
theorem c4_time_range_amended_witness :
    timeToMinutes (some "99:99 PM") = some 6759 ∧ 6759 ≤ 6759 :=
  ⟨by rfl, c4_time_range_amended (some "99:99 PM") 6759 (by rfl)⟩

/-! ## Claim C5 -/

/-- C5: clock-time extraction maps every valid 24-hour HH:MM input to
HH*60+MM, and honors the 12-hour conversion rules on the documented
examples: 06:30 PM to 1110, 06:30 AM to 390, 12:00 AM to 0 and
12:00 PM to 720. -/
theorem c5_clock_time :
    (∀ hh : Fin 24, ∀ mm : Fin 60,
      timeToMinutes (some (mkHHMM hh.val mm.val)) = some (hh.val * 60 + mm.val))
    ∧ timeToMinutes (some "06:30 PM") = some 1110
    ∧ timeToMinutes (some "06:30 AM") = some 390
    ∧ timeToMinutes (some "12:00 AM") = some 0
    ∧ timeToMinutes (some "12:00 PM") = some 720 := by
  refine ⟨by decide, by rfl, by rfl, by rfl, by rfl⟩

/-! ## Claim C6: lemmas about all-digit inputs -/

theorem takeWhile_all_of {α : Type _} {p : α → Bool} :
    ∀ {l : List α}, (∀ c ∈ l, p c = true) → l.takeWhile p = l := by
  intro l
  induction l with
  | nil => intro _; rfl
  | cons a t ih =>
    intro h
    rw [List.takeWhile_cons, h a (List.mem_cons_self a t),
      ih fun c hc => h c (List.mem_cons_of_mem a hc)]
    simp

theorem dropWhile_nil_of {α : Type _} {p : α → Bool} :
    ∀ {l : List α}, (∀ c ∈ l, p c = true) → l.dropWhile p = [] := by
  intro l
  induction l with
  | nil => intro _; rfl
  | cons a t ih =>
    intro h
    rw [List.dropWhile_cons, h a (List.mem_cons_self a t)]
    simp only [if_true]
    exact ih fun c hc => h c (List.mem_cons_of_mem a hc)

theorem dropWhile_noop_of {α : Type _} {p : α → Bool} :
    ∀ {l : List α}, (∀ c ∈ l, p c = false) → l.dropWhile p = l := by
  intro l
  induction l with
  | nil => intro _; rfl
  | cons a t ih =>
    intro h
    rw [List.dropWhile_cons, h a (List.mem_cons_self a t)]
    simp

theorem map_noop_of {α : Type _} {f : α → α} :
    ∀ {l : List α}, (∀ c ∈ l, f c = c) → l.map f = l := by
  intro l
  induction l with
  | nil => intro _; rfl
  | cons a t ih =>
    intro h
    simp only [List.map_cons, h a (List.mem_cons_self a t),
      ih fun c hc => h c (List.mem_cons_of_mem a hc)]

theorem digit_not_space {c : Char} (h : isDigitC c = true) : pyIsSpace c = false := by
  simp only [isDigitC, Bool.and_eq_true, decide_eq_true_eq] at h
  simp only [pyIsSpace, Bool.or_eq_false_iff, decide_eq_false_iff_not]
  omega

theorem digit_lower_noop {c : Char} (h : isDigitC c = true) : pyLowerChar c = c := by
  simp only [isDigitC, Bool.and_eq_true, decide_eq_true_eq] at h
  unfold pyLowerChar
  rw [if_neg]
  omega

theorem pyStrip_noop_of_digits {l : List Char} (h : ∀ c ∈ l, isDigitC c = true) :
    pyStrip l = l := by
  unfold pyStrip
  rw [dropWhile_noop_of fun c hc => digit_not_space (h c hc)]
  rw [dropWhile_noop_of fun c hc => digit_not_space (h c (List.mem_reverse.1 hc))]
  exact List.reverse_reverse l

theorem searchUnit_none_of_digits {u : Char} :
    ∀ {l : List Char}, (∀ c ∈ l, isDigitC c = true) → searchUnit u l = none := by
  intro l
  induction l with
  | nil => intro _; rfl
  | cons a t ih =>
    intro h
    have hall : ∀ c ∈ a :: t, isDigitC c = true := h
    unfold searchUnit unitCand
    rw [takeWhile_all_of hall, dropWhile_nil_of hall]
    have ht : t.takeWhile isDigitC = t :=
      takeWhile_all_of fun c hc => h c (List.mem_cons_of_mem a hc)
    simp only [dropSpaces, List.dropWhile_nil, List.head?_nil]
    simp only [reduceCtorEq, if_false]
    exact ih fun c hc => h c (List.mem_cons_of_mem a hc)

theorem matchColon_none_of_digits {l : List Char} (h : ∀ c ∈ l, isDigitC c = true) :
    matchColon l = none := by
  unfold matchColon take2Digits
  rw [takeWhile_all_of h, dropWhile_nil_of h]
  match l with
  | [] => rfl
  | [c] => rfl
  | [c1, c2] => rfl
  | c1 :: c2 :: c3 :: t => rfl

theorem firstDigitRun_of_digits :
    ∀ {l : List Char}, l ≠ [] → (∀ c ∈ l, isDigitC c = true) →
      firstDigitRun l = some (digitsVal l) := by
  intro l
  match l with
  | [] => intro h; exact absurd rfl h
  | c :: t =>
    intro _ h
    unfold firstDigitRun
    rw [h c (List.mem_cons_self c t)]
    simp only [if_true]
    rw [takeWhile_all_of fun d hd => h d (List.mem_cons_of_mem c hd)]

/-- C6: duration extraction sums h/m components, falls back to the
colon-dash form, then to a bare number read as hours when at most 24 and
as minutes otherwise; every all-digit input follows the bare-number rule,
and the documented examples hold: 10h 30m to 630, 45m to 45, 2h to 120,
10:30 to 630 and 18 to 1080. -/
theorem c6_duration :
    (∀ ds : List Char, ds ≠ [] → (∀ c ∈ ds, isDigitC c = true) →
      durationToMinutes (some (String.mk ds)) =
        some (if digitsVal ds ≤ 24 then digitsVal ds * 60 else digitsVal ds))
    ∧ durationToMinutes (some "10h 30m") = some 630
    ∧ durationToMinutes (some "45m") = some 45
    ∧ durationToMinutes (some "2h") = some 120
    ∧ durationToMinutes (some "10:30") = some 630
    ∧ durationToMinutes (some "18") = some 1080 := by
  refine ⟨?_, by rfl, by rfl, by rfl, by rfl, by rfl⟩
  intro ds hne hdig
  show (if (pyStrip ds).map pyLowerChar = [] then none
    else durCore ((pyStrip ds).map pyLowerChar)) = _
  rw [pyStrip_noop_of_digits hdig, map_noop_of fun c hc => digit_lower_noop (hdig c hc)]
  rw [if_neg hne]
  unfold durCore
  rw [searchUnit_none_of_digits hdig, searchUnit_none_of_digits hdig]
  simp only [Option.isSome_none, Bool.or_self, Bool.false_eq_true, if_false]
  rw [matchColon_none_of_digits hdig, firstDigitRun_of_digits hne hdig]
  rfl

/-- C6, witness: the all-digit branch applied at the input 45. -/
theorem c6_duration_witness :
    durationToMinutes (some (String.mk ['4', '5'])) =
      some (if digitsVal ['4', '5'] ≤ 24 then digitsVal ['4', '5'] * 60
        else digitsVal ['4', '5']) :=
  c6_duration.1 ['4', '5'] (by decide) (by decide)

/-! ## Claim C1 -/

theorem dropScoreVal_eq_spec (x : Option Nat) : dropScoreVal x = specWindowScore x := by
  cases x with
  | none => rfl
  | some v =>
    unfold dropScoreVal specWindowScore IDEAL_START IDEAL_END
    norm_num

/-- C1: the dropping-time preference follows the two-mode rule.  When some
offer's dropping time lies in [390, 540] the column is scored pointwise by
the window formula (1 inside, `max 0 (1 - dist/720)` outside, 0 for
missing); when none does and at least one dropping time was observed with
maximum m, missing times are imputed as m + 120 and the raw minutes are
min-max normalized inverted. -/
theorem c1_dropping_time_preference (drops : List (Option Nat)) :
    (hasInWindow drops = true → dropPrefCol drops = drops.map specWindowScore)
    ∧ (hasInWindow drops = false → ∀ m, maxObs drops = some m →
        dropPrefCol drops =
          normalizeSeries
            ((drops.map fun x => ((x.getD (m + 120) : Nat) : ℚ)).map some) true) := by
  constructor
  · intro h
    unfold dropPrefCol
    rw [h]
    simp only [if_true]
    exact List.map_congr_left fun x _ => dropScoreVal_eq_spec x
  · intro h m hm
    unfold dropPrefCol
    rw [h]
    simp only [Bool.false_eq_true, if_false, hm, Option.getD_some]

/-- C1, witness: both modes exercised on concrete columns. -/
theorem c1_dropping_time_preference_witness :
    dropPrefCol [some 400, some 600] = [some 400, some 600].map specWindowScore
    ∧ dropPrefCol [some 600, none] =
        normalizeSeries
          (([some 600, none].map fun x => ((x.getD (600 + 120) : Nat) : ℚ)).map some) true :=
  ⟨(c1_dropping_time_preference [some 400, some 600]).1 (by decide),
   (c1_dropping_time_preference [some 600, none]).2 (by decide) 600 (by rfl)⟩

/-! ## Claim C7 -/

theorem maxObs_none_all :
    ∀ {l : List (Option Nat)}, maxObs l = none → ∀ x ∈ l, x = none := by
  intro l
  induction l with
  | nil => intro _ x hx; simp at hx
  | cons a t ih =>
    intro h x hx
    match a with
    | none =>
      rcases List.mem_cons.1 hx with rfl | hx2
      · rfl
      · exact ih h x hx2
    | some v =>
      exfalso
      show False
      unfold maxObs at h
      split at h <;> simp at h

/-- C7: the per-column missing-data substitutions.  A missing price
becomes 1.5 times the maximum observed price, or 1.5 times the constant
999999 when no price is observed; a missing rating becomes the minimum
observed rating, or zero when none is observed; missing window-seat and
seat counts become zero; a missing duration becomes 1.5 times the maximum
observed duration; a missing boarding time becomes the maximum observed
boarding time plus 60 minutes. -/
theorem c7_missing_substitution (lp ld lb lw ls : List (Option Nat))
    (lr : List (Option ℚ)) :
    (∀ m, maxObs lp = some m → fillPrice lp =
      lp.map fun x =>
        match x with
        | some v => (v : ℚ)
        | none => (m : ℚ) * (3 / 2))
    ∧ (maxObs lp = none → fillPrice lp = lp.map fun _ => ((999999 : Nat) : ℚ) * (3 / 2))
    ∧ (∀ m, minObsQ lr = some m → fillRating lr = lr.map fun x => x.getD m)
    ∧ (minObsQ lr = none → fillRating lr = lr.map fun _ => 0)
    ∧ fillZero lw = lw.map (fun x => ((x.getD 0 : Nat) : ℚ))
    ∧ fillZero ls = ls.map (fun x => ((x.getD 0 : Nat) : ℚ))
    ∧ (∀ m, maxObs ld = some m → fillDur ld =
      ld.map fun x =>
        match x with
        | some v => (v : ℚ)
        | none => (m : ℚ) * (3 / 2))
    ∧ (∀ m, maxObs lb = some m → fillBoard lb =
      lb.map fun x =>
        match x with
        | some v => (v : ℚ)
        | none => (m : ℚ) + 60) := by
  refine ⟨?_, ?_, ?_, ?_, rfl, rfl, ?_, ?_⟩
  · intro m hm
    unfold fillPrice
    rw [hm]
    rfl
  · intro hm
    unfold fillPrice
    rw [hm]
    refine List.map_congr_left fun x hx => ?_
    rw [maxObs_none_all hm x hx]
    rfl
  · intro m hm
    unfold fillRating
    rw [hm]
  · intro hm
    unfold fillRating
    rw [hm]
  · intro m hm
    unfold fillDur
    rw [hm]
    rfl
  · intro m hm
    unfold fillBoard
    rw [hm]
    rfl

/-- C7, witness: every substitution at a concrete column. -/
theorem c7_missing_substitution_witness :
    (fillPrice [some 10, none] =
      ([some 10, none] : List (Option Nat)).map fun x =>
        match x with
        | some v => (v : ℚ)
        | none => ((10 : Nat) : ℚ) * (3 / 2))
    ∧ (fillPrice [none] =
      ([none] : List (Option Nat)).map fun _ => ((999999 : Nat) : ℚ) * (3 / 2))
    ∧ (fillRating [some 2, none] =
      ([some 2, none] : List (Option ℚ)).map fun x => x.getD 2)
    ∧ (fillRating [none] = ([none] : List (Option ℚ)).map fun _ => 0)
    ∧ (fillDur [some 100, none] =
      ([some 100, none] : List (Option Nat)).map fun x =>
        match x with
        | some v => (v : ℚ)
        | none => ((100 : Nat) : ℚ) * (3 / 2))
    ∧ (fillBoard [some 60, none] =
      ([some 60, none] : List (Option Nat)).map fun x =>
        match x with
        | some v => (v : ℚ)
        | none => ((60 : Nat) : ℚ) + 60) :=
  ⟨(c7_missing_substitution [some 10, none] [] [] [] [] []).1 10 (by rfl),
   (c7_missing_substitution [none] [] [] [] [] []).2.1 (by rfl),
   (c7_missing_substitution [] [] [] [] [] [some 2, none]).2.2.1 2 (by rfl),
   (c7_missing_substitution [] [] [] [] [] [none]).2.2.2.1 (by rfl),
   (c7_missing_substitution [] [some 100, none] [] [] [] []).2.2.2.2.2.2.1 100 (by rfl),
   (c7_missing_substitution [] [] [some 60, none] [] [] []).2.2.2.2.2.2.2 60 (by rfl)⟩

/-! ## Claim C8 -/

theorem minObsQ_none_of {s : List (Option ℚ)} (h : ∀ x ∈ s, x = none) :
    minObsQ s = none := by
  induction s with
  | nil => rfl
  | cons a t ih =>
    have ha := h a (List.mem_cons_self a t)
    subst ha
    exact ih fun x hx => h x (List.mem_cons_of_mem _ hx)

theorem minObsQ_const {v : ℚ} :
    ∀ {s : List (Option ℚ)}, s ≠ [] → (∀ x ∈ s, x = some v) → minObsQ s = some v := by
  intro s
  induction s with
  | nil => intro h; exact absurd rfl h
  | cons a t ih =>
    intro _ h
    have ha := h a (List.mem_cons_self a t)
    subst ha
    cases t with
    | nil => rfl
    | cons b u =>
      show (match minObsQ (b :: u) with
        | none => some v
        | some m => some (min v m)) = some v
      rw [ih (by simp) fun x hx => h x (List.mem_cons_of_mem _ hx)]
      simp

theorem maxObsQ_const {v : ℚ} :
    ∀ {s : List (Option ℚ)}, s ≠ [] → (∀ x ∈ s, x = some v) → maxObsQ s = some v := by
  intro s
  induction s with
  | nil => intro h; exact absurd rfl h
  | cons a t ih =>
    intro _ h
    have ha := h a (List.mem_cons_self a t)
    subst ha
    cases t with
    | nil => rfl
    | cons b u =>
      show (match maxObsQ (b :: u) with
        | none => some v
        | some m => some (max v m)) = some v
      rw [ih (by simp) fun x hx => h x (List.mem_cons_of_mem _ hx)]
      simp

theorem normalizeSeries_allNone {s : List (Option ℚ)} (inv : Bool)
    (h : ∀ x ∈ s, x = none) : normalizeSeries s inv = s.map fun _ => (1 : ℚ) / 2 := by
  unfold normalizeSeries
  rw [minObsQ_none_of h]

theorem normalizeSeries_allEq {s : List (Option ℚ)} (inv : Bool) (v : ℚ)
    (h : ∀ x ∈ s, x = some v) : normalizeSeries s inv = s.map fun _ => (1 : ℚ) / 2 := by
  cases hs : s with
  | nil => rfl
  | cons a t =>
    rw [← hs]
    have hne : s ≠ [] := by rw [hs]; simp
    unfold normalizeSeries
    rw [minObsQ_const hne h, maxObsQ_const hne h]
    simp

theorem normalizeSeries_formula {s : List (Option ℚ)} (inv : Bool) {mn mx : ℚ}
    (hmn : minObsQ s = some mn) (hmx : maxObsQ s = some mx) (hne : mn ≠ mx) :
    normalizeSeries s inv = s.map fun x =>
      match x with
      | none => (1 : ℚ) / 2
      | some v => clip01 (if inv then 1 - (v - mn) / (mx - mn) else (v - mn) / (mx - mn)) := by
  unfold normalizeSeries
  simp only [hmn, hmx]
  rw [if_neg (fun hc : mx = mn => hne hc.symm)]

theorem normalizeSeries_singleton (v : ℚ) (inv : Bool) :
    normalizeSeries [some v] inv = [(1 : ℚ) / 2] := by
  rw [normalizeSeries_allEq inv v (by simp)]
  rfl

/-- C8: min-max normalization.  An all-missing column and a column whose
values are all equal normalize to the neutral 1/2 everywhere; otherwise
each present value is rescaled to (value - min)/(max - min), inverted
exactly when the column is an invert column, clamped to the unit interval,
and a remaining missing entry defaults to 1/2; in the pipeline the
inverted columns are exactly price, duration and boarding time, the
others are normalized without inversion. -/
theorem c8_normalization (s : List (Option ℚ)) (inv : Bool) (df : List RawOffer) :
    ((∀ x ∈ s, x = none) → normalizeSeries s inv = s.map fun _ => (1 : ℚ) / 2)
    ∧ (∀ v : ℚ, (∀ x ∈ s, x = some v) → normalizeSeries s inv = s.map fun _ => (1 : ℚ) / 2)
    ∧ (∀ mn mx, minObsQ s = some mn → maxObsQ s = some mx → mn ≠ mx →
        normalizeSeries s inv = s.map fun x =>
          match x with
          | none => (1 : ℚ) / 2
          | some v => clip01 (if inv then 1 - (v - mn) / (mx - mn) else (v - mn) / (mx - mn)))
    ∧ priceNormCol df = normalizeSeries ((fillPrice (priceCol df)).map some) true
    ∧ durNormCol df = normalizeSeries ((fillDur (durCol df)).map some) true
    ∧ boardNormCol df = normalizeSeries ((fillBoard (boardCol df)).map some) true
    ∧ ratingNormCol df = normalizeSeries ((fillRating (ratingCol df)).map some) false
    ∧ windowNormCol df = normalizeSeries ((fillZero (windowCol df)).map some) false
    ∧ seatsNormCol df = normalizeSeries ((fillZero (seatsCol df)).map some) false
    ∧ dropNormCol df = normalizeSeries ((dropPrefCol (dropCol df)).map some) false := by
  exact ⟨fun h => normalizeSeries_allNone inv h,
    fun v h => normalizeSeries_allEq inv v h,
    fun mn mx hmn hmx hne => normalizeSeries_formula inv hmn hmx hne,
    rfl, rfl, rfl, rfl, rfl, rfl, rfl⟩

/-- C8, witness: all three normalization branches at concrete columns. -/
theorem c8_normalization_witness :
    (normalizeSeries [none, none] true =
      ([none, none] : List (Option ℚ)).map fun _ => (1 : ℚ) / 2)
    ∧ (normalizeSeries [some 2, some 2] false =
      ([some 2, some 2] : List (Option ℚ)).map fun _ => (1 : ℚ) / 2)
    ∧ (normalizeSeries [some 0, some 1, none] true =
      ([some 0, some 1, none] : List (Option ℚ)).map fun x =>
        match x with
        | none => (1 : ℚ) / 2
        | some v => clip01 (if true then 1 - (v - 0) / (1 - 0) else (v - 0) / (1 - 0))) :=
  ⟨(c8_normalization [none, none] true []).1 (by decide),
   (c8_normalization [some 2, some 2] false []).2.1 2 (by decide),
   (c8_normalization [some 0, some 1, none] true []).2.2.1 0 1 (by rfl) (by rfl)
     (by norm_num)⟩

/-! ## Claim C10 -/

theorem clip01_bounds (x : ℚ) : 0 ≤ clip01 x ∧ clip01 x ≤ 1 := by
  unfold clip01
  constructor
  · exact le_max_left 0 (min 1 x)
  · exact max_le (by norm_num) (min_le_left 1 x)

theorem normalizeSeries_mem_bound {s : List (Option ℚ)} {inv : Bool} :
    ∀ x ∈ normalizeSeries s inv, 0 ≤ x ∧ x ≤ 1 := by
  intro x hx
  unfold normalizeSeries at hx
  split at hx
  · split at hx
    · obtain ⟨y, _, rfl⟩ := List.mem_map.1 hx
      norm_num
    · obtain ⟨y, _, rfl⟩ := List.mem_map.1 hx
      match y with
      | none => norm_num
      | some v => exact clip01_bounds _
  · obtain ⟨y, _, rfl⟩ := List.mem_map.1 hx
    norm_num

theorem scaleQ_mem_bound {w : ℚ} {l : List ℚ} (hw : 0 ≤ w)
    (hl : ∀ y ∈ l, 0 ≤ y ∧ y ≤ 1) : ∀ x ∈ scaleQ w l, 0 ≤ x ∧ x ≤ w := by
  intro x hx
  obtain ⟨y, hy, rfl⟩ := List.mem_map.1 hx
  obtain ⟨h1, h2⟩ := hl y hy
  constructor
  · exact mul_nonneg hw h1
  · calc w * y ≤ w * 1 := mul_le_mul_of_nonneg_left h2 hw
    _ = w := mul_one w

theorem addQ_mem_bound {A B : ℚ} :
    ∀ {a b : List ℚ}, (∀ x ∈ a, 0 ≤ x ∧ x ≤ A) → (∀ x ∈ b, 0 ≤ x ∧ x ≤ B) →
      ∀ x ∈ addQ a b, 0 ≤ x ∧ x ≤ A + B := by
  intro a
  induction a with
  | nil => intro b _ _ x hx; simp [addQ] at hx
  | cons a0 t ih =>
    intro b ha hb x hx
    match b with
    | [] => simp [addQ] at hx
    | b0 :: u =>
      rw [show addQ (a0 :: t) (b0 :: u) = (a0 + b0) :: addQ t u from rfl] at hx
      rcases List.mem_cons.1 hx with rfl | hx2
      · obtain ⟨h1, h2⟩ := ha a0 (List.mem_cons_self _ _)
        obtain ⟨h3, h4⟩ := hb b0 (List.mem_cons_self _ _)
        exact ⟨by linarith, by linarith⟩
      · exact ih (fun y hy => ha y (List.mem_cons_of_mem _ hy))
          (fun y hy => hb y (List.mem_cons_of_mem _ hy)) x hx2

theorem defaultWeights_nonneg {k : String} {v : ℚ} (h : defaultWeights k = some v) :
    0 ≤ v := by
  unfold defaultWeights at h
  split_ifs at h <;> (injection h with h; rw [← h]; norm_num)

theorem mergedGet_nonneg {ov : Option (String → Option ℚ)} (h : NonnegOv ov)
    (k : String) : 0 ≤ mergedGet ov k := by
  match ov with
  | none =>
    show 0 ≤ (defaultWeights k).getD 1
    match hd : defaultWeights k with
    | none => norm_num
    | some v => exact defaultWeights_nonneg hd
  | some o =>
    show 0 ≤ ((o k).orElse fun _ => defaultWeights k).getD 1
    match ho : o k with
    | some v =>
      simpa [Option.orElse] using h k v ho
    | none =>
      show 0 ≤ ((Option.none.orElse fun _ => defaultWeights k).getD 1)
      match hd : defaultWeights k with
      | none => simp [Option.orElse]
      | some v => simpa [Option.orElse] using defaultWeights_nonneg hd

/-- C10: with any non-negative weight configuration every one of the
seven normalized criterion scores lies in the unit interval, and every
composite score lies between 0 and the sum of the seven effective
weights, which is 8.9 under the defaults. -/
theorem c10_score_bounds (df : List RawOffer) (ov : Option (String → Option ℚ))
    (h : NonnegOv ov) :
    (∀ x ∈ priceNormCol df, 0 ≤ x ∧ x ≤ 1)
    ∧ (∀ x ∈ ratingNormCol df, 0 ≤ x ∧ x ≤ 1)
    ∧ (∀ x ∈ windowNormCol df, 0 ≤ x ∧ x ≤ 1)
    ∧ (∀ x ∈ seatsNormCol df, 0 ≤ x ∧ x ≤ 1)
    ∧ (∀ x ∈ durNormCol df, 0 ≤ x ∧ x ≤ 1)
    ∧ (∀ x ∈ boardNormCol df, 0 ≤ x ∧ x ≤ 1)
    ∧ (∀ x ∈ dropNormCol df, 0 ≤ x ∧ x ≤ 1)
    ∧ (∀ x ∈ scoreList df ov, 0 ≤ x ∧ x ≤ weightSum ov)
    ∧ weightSum none = 89 / 10 := by
  refine ⟨normalizeSeries_mem_bound, normalizeSeries_mem_bound,
    normalizeSeries_mem_bound, normalizeSeries_mem_bound, normalizeSeries_mem_bound,
    normalizeSeries_mem_bound, normalizeSeries_mem_bound, ?_, ?_⟩
  swap
  · have hw : weightSum none = 3 + 2 + 1 + 3 / 5 + 1 + 1 / 5 + 11 / 10 := rfl
    rw [hw]
    norm_num
  have hb :
      ∀ x ∈ scoreList df ov, 0 ≤ x ∧
        x ≤ mergedGet ov "price" + (mergedGet ov "rating" + (mergedGet ov "window" +
          (mergedGet ov "seats" + (mergedGet ov "duration" + (mergedGet ov "boarding" +
            mergedGet ov "dropping_pref"))))) := by
    refine addQ_mem_bound
      (scaleQ_mem_bound (mergedGet_nonneg h _) normalizeSeries_mem_bound) ?_
    refine addQ_mem_bound
      (scaleQ_mem_bound (mergedGet_nonneg h _) normalizeSeries_mem_bound) ?_
    refine addQ_mem_bound
      (scaleQ_mem_bound (mergedGet_nonneg h _) normalizeSeries_mem_bound) ?_
    refine addQ_mem_bound
      (scaleQ_mem_bound (mergedGet_nonneg h _) normalizeSeries_mem_bound) ?_
    refine addQ_mem_bound
      (scaleQ_mem_bound (mergedGet_nonneg h _) normalizeSeries_mem_bound) ?_
    exact addQ_mem_bound
      (scaleQ_mem_bound (mergedGet_nonneg h _) normalizeSeries_mem_bound)
      (scaleQ_mem_bound (mergedGet_nonneg h _) normalizeSeries_mem_bound)
  intro x hx
  refine ⟨(hb x hx).1, le_of_le_of_eq (hb x hx).2 ?_⟩
  unfold weightSum
  ring

/-- C10, witness: the default configuration on a concrete table. -/
theorem c10_score_bounds_witness :
    (∀ x ∈ scoreList [oneRowOffer] none, 0 ≤ x ∧ x ≤ weightSum none)
    ∧ weightSum none = 89 / 10 :=
  ⟨(c10_score_bounds [oneRowOffer] none trivial).2.2.2.2.2.2.2.1,
   (c10_score_bounds [oneRowOffer] none trivial).2.2.2.2.2.2.2.2⟩

/-! ## Claim C9: evaluation of the one-row table -/

theorem oneRow_priceNorm : priceNormCol [oneRowOffer] = [(1 : ℚ) / 2] := by
  show normalizeSeries ((fillPrice (priceCol [oneRowOffer])).map some) true = [(1 : ℚ) / 2]
  obtain ⟨v, hv⟩ : ∃ v, (fillPrice (priceCol [oneRowOffer])).map some = [some v] := ⟨_, rfl⟩
  rw [hv, normalizeSeries_singleton]

theorem oneRow_ratingNorm : ratingNormCol [oneRowOffer] = [(1 : ℚ) / 2] := by
  show normalizeSeries ((fillRating (ratingCol [oneRowOffer])).map some) false = [(1 : ℚ) / 2]
  obtain ⟨v, hv⟩ : ∃ v, (fillRating (ratingCol [oneRowOffer])).map some = [some v] := ⟨_, rfl⟩
  rw [hv, normalizeSeries_singleton]

theorem oneRow_windowNorm : windowNormCol [oneRowOffer] = [(1 : ℚ) / 2] := by
  show normalizeSeries ((fillZero (windowCol [oneRowOffer])).map some) false = [(1 : ℚ) / 2]
  obtain ⟨v, hv⟩ : ∃ v, (fillZero (windowCol [oneRowOffer])).map some = [some v] := ⟨_, rfl⟩
  rw [hv, normalizeSeries_singleton]

theorem oneRow_seatsNorm : seatsNormCol [oneRowOffer] = [(1 : ℚ) / 2] := by
  show normalizeSeries ((fillZero (seatsCol [oneRowOffer])).map some) false = [(1 : ℚ) / 2]
  obtain ⟨v, hv⟩ : ∃ v, (fillZero (seatsCol [oneRowOffer])).map some = [some v] := ⟨_, rfl⟩
  rw [hv, normalizeSeries_singleton]

theorem oneRow_durNorm : durNormCol [oneRowOffer] = [(1 : ℚ) / 2] := by
  show normalizeSeries ((fillDur (durCol [oneRowOffer])).map some) true = [(1 : ℚ) / 2]
  obtain ⟨v, hv⟩ : ∃ v, (fillDur (durCol [oneRowOffer])).map some = [some v] := ⟨_, rfl⟩
  rw [hv, normalizeSeries_singleton]

theorem oneRow_boardNorm : boardNormCol [oneRowOffer] = [(1 : ℚ) / 2] := by
  show normalizeSeries ((fillBoard (boardCol [oneRowOffer])).map some) true = [(1 : ℚ) / 2]
  obtain ⟨v, hv⟩ : ∃ v, (fillBoard (boardCol [oneRowOffer])).map some = [some v] := ⟨_, rfl⟩
  rw [hv, normalizeSeries_singleton]

theorem oneRow_dropPref : dropPrefCol (dropCol [oneRowOffer]) = [(1 : ℚ) / 2] := by
  show dropPrefCol [none] = [(1 : ℚ) / 2]
  unfold dropPrefCol
  rw [show hasInWindow [none] = false from rfl]
  simp only [Bool.false_eq_true, if_false]
  obtain ⟨v, hv⟩ : ∃ v, (([none] : List (Option Nat)).map fun x =>
      ((x.getD ((maxObs [none]).getD 1440 + 120) : Nat) : ℚ)).map some = [some v] := ⟨_, rfl⟩
  rw [hv, normalizeSeries_singleton]

theorem oneRow_dropNorm : dropNormCol [oneRowOffer] = [(1 : ℚ) / 2] := by
  show normalizeSeries ((dropPrefCol (dropCol [oneRowOffer])).map some) false = [(1 : ℚ) / 2]
  rw [oneRow_dropPref]
  exact normalizeSeries_singleton _ _

theorem oneRow_score : scoreList [oneRowOffer] none = [(89 : ℚ) / 20] := by
  unfold scoreList
  rw [oneRow_priceNorm, oneRow_ratingNorm, oneRow_windowNorm, oneRow_seatsNorm,
    oneRow_durNorm, oneRow_boardNorm, oneRow_dropNorm]
  rw [show mergedGet none "price" = 3 from rfl, show mergedGet none "rating" = 2 from rfl,
    show mergedGet none "window" = 1 from rfl, show mergedGet none "seats" = 3 / 5 from rfl,
    show mergedGet none "duration" = 1 from rfl, show mergedGet none "boarding" = 1 / 5 from rfl,
    show mergedGet none "dropping_pref" = 11 / 10 from rfl]
  show [(3 : ℚ) * (1 / 2) + ((2 : ℚ) * (1 / 2) + ((1 : ℚ) * (1 / 2) + ((3 : ℚ) / 5 * (1 / 2) +
    ((1 : ℚ) * (1 / 2) + ((1 : ℚ) / 5 * (1 / 2) + (11 : ℚ) / 10 * (1 / 2))))))] = [(89 : ℚ) / 20]
  norm_num

theorem oneRow_pick : pickBestBus [oneRowOffer] none = some (oneRowOffer, 89 / 20) := by
  show some (([oneRowOffer].getD (bestIndex (scoreList [oneRowOffer] none)) emptyOffer),
    (scoreList [oneRowOffer] none).getD (bestIndex (scoreList [oneRowOffer] none)) 0) =
    some (oneRowOffer, 89 / 20)
  rw [oneRow_score]
  rfl

/-- C9: the ranker reports no-result exactly for the structurally empty
table; every non-empty table yields some best row without failing, with
malformed or wholly absent scored fields degrading to the substitution
policy; and the one-row table carrying only a price is returned as best
with composite score 89/20 = 4.45 computed from substituted defaults. -/
theorem c9_empty_and_robust :
    (∀ ov, pickBestBus [] ov = none)
    ∧ (∀ (df : List RawOffer) (ov : Option (String → Option ℚ)), df ≠ [] →
        ∃ r : RawOffer × ℚ, pickBestBus df ov = some r)
    ∧ pickBestBus [oneRowOffer] none = some (oneRowOffer, 89 / 20) := by
  refine ⟨fun ov => rfl, ?_, oneRow_pick⟩
  intro df ov hne
  match df with
  | [] => exact absurd rfl hne
  | r :: t => exact ⟨_, rfl⟩

/-- C9, witness: a non-empty table of malformed rows still yields a best
row. -/
theorem c9_empty_and_robust_witness :
    ∃ r : RawOffer × ℚ, pickBestBus [emptyOffer] none = some r :=
  c9_empty_and_robust.2.1 [emptyOffer] none (by simp)

/-! ## Claim C2 -/

theorem scoreList_weights_eq (df : List RawOffer) {ov1 ov2 : Option (String → Option ℚ)}
    (h : ∀ k ∈ criterionKeys, mergedGet ov1 k = mergedGet ov2 k) :
    scoreList df ov1 = scoreList df ov2 := by
  unfold scoreList
  rw [h "price" (by decide), h "rating" (by decide), h "window" (by decide),
    h "seats" (by decide), h "duration" (by decide), h "boarding" (by decide),
    h "dropping_pref" (by decide)]

theorem twoRow_priceNorm : priceNormCol twoRowTable = [(1 : ℚ) / 2, (1 : ℚ) / 2] := by
  show normalizeSeries ((fillPrice (priceCol twoRowTable)).map some) true = _
  obtain ⟨v, hv⟩ : ∃ v, (fillPrice (priceCol twoRowTable)).map some = [some v, some v] :=
    ⟨_, rfl⟩
  rw [hv, normalizeSeries_allEq true v (by simp)]
  rfl

theorem twoRow_ratingNorm : ratingNormCol twoRowTable = [(1 : ℚ) / 2, (1 : ℚ) / 2] := by
  show normalizeSeries ((fillRating (ratingCol twoRowTable)).map some) false = _
  obtain ⟨v, hv⟩ : ∃ v, (fillRating (ratingCol twoRowTable)).map some = [some v, some v] :=
    ⟨_, rfl⟩
  rw [hv, normalizeSeries_allEq false v (by simp)]
  rfl

theorem twoRow_windowNorm : windowNormCol twoRowTable = [1, 0] := by
  show normalizeSeries ((fillZero (windowCol twoRowTable)).map some) false = [1, 0]
  have hmn : minObsQ ((fillZero (windowCol twoRowTable)).map some) =
      some (min ((5 : Nat) : ℚ) ((0 : Nat) : ℚ)) := rfl
  have hmx : maxObsQ ((fillZero (windowCol twoRowTable)).map some) =
      some (max ((5 : Nat) : ℚ) ((0 : Nat) : ℚ)) := rfl
  rw [show min ((5 : Nat) : ℚ) ((0 : Nat) : ℚ) = 0 by norm_num] at hmn
  rw [show max ((5 : Nat) : ℚ) ((0 : Nat) : ℚ) = 5 by norm_num] at hmx
  rw [normalizeSeries_formula false hmn hmx (by norm_num)]
  show [clip01 ((((5 : Nat) : ℚ) - 0) / ((5 : ℚ) - 0)),
    clip01 ((((0 : Nat) : ℚ) - 0) / ((5 : ℚ) - 0))] = [1, 0]
  unfold clip01
  norm_num

theorem twoRow_seatsNorm : seatsNormCol twoRowTable = [(1 : ℚ) / 2, (1 : ℚ) / 2] := by
  show normalizeSeries ((fillZero (seatsCol twoRowTable)).map some) false = _
  obtain ⟨v, hv⟩ : ∃ v, (fillZero (seatsCol twoRowTable)).map some = [some v, some v] :=
    ⟨_, rfl⟩
  rw [hv, normalizeSeries_allEq false v (by simp)]
  rfl

theorem twoRow_durNorm : durNormCol twoRowTable = [(1 : ℚ) / 2, (1 : ℚ) / 2] := by
  show normalizeSeries ((fillDur (durCol twoRowTable)).map some) true = _
  obtain ⟨v, hv⟩ : ∃ v, (fillDur (durCol twoRowTable)).map some = [some v, some v] :=
    ⟨_, rfl⟩
  rw [hv, normalizeSeries_allEq true v (by simp)]
  rfl

theorem twoRow_boardNorm : boardNormCol twoRowTable = [(1 : ℚ) / 2, (1 : ℚ) / 2] := by
  show normalizeSeries ((fillBoard (boardCol twoRowTable)).map some) true = _
  obtain ⟨v, hv⟩ : ∃ v, (fillBoard (boardCol twoRowTable)).map some = [some v, some v] :=
    ⟨_, rfl⟩
  rw [hv, normalizeSeries_allEq true v (by simp)]
  rfl

theorem twoRow_dropPref : dropPrefCol (dropCol twoRowTable) = [(1 : ℚ) / 2, (1 : ℚ) / 2] := by
  show dropPrefCol [none, none] = _
  unfold dropPrefCol
  rw [show hasInWindow [none, none] = false from rfl]
  simp only [Bool.false_eq_true, if_false]
  obtain ⟨v, hv⟩ : ∃ v, (([none, none] : List (Option Nat)).map fun x =>
      ((x.getD ((maxObs [none, none]).getD 1440 + 120) : Nat) : ℚ)).map some =
      [some v, some v] := ⟨_, rfl⟩
  rw [hv, normalizeSeries_allEq true v (by simp)]
  rfl

theorem twoRow_dropNorm : dropNormCol twoRowTable = [(1 : ℚ) / 2, (1 : ℚ) / 2] := by
  show normalizeSeries ((dropPrefCol (dropCol twoRowTable)).map some) false = _
  rw [twoRow_dropPref]
  rw [normalizeSeries_allEq false ((1 : ℚ) / 2) (by simp)]
  rfl

theorem twoRow_score_default : scoreList twoRowTable none = [(99 : ℚ) / 20, (79 : ℚ) / 20] := by
  unfold scoreList
  rw [twoRow_priceNorm, twoRow_ratingNorm, twoRow_windowNorm, twoRow_seatsNorm,
    twoRow_durNorm, twoRow_boardNorm, twoRow_dropNorm]
  rw [show mergedGet none "price" = 3 from rfl, show mergedGet none "rating" = 2 from rfl,
    show mergedGet none "window" = 1 from rfl, show mergedGet none "seats" = 3 / 5 from rfl,
    show mergedGet none "duration" = 1 from rfl, show mergedGet none "boarding" = 1 / 5 from rfl,
    show mergedGet none "dropping_pref" = 11 / 10 from rfl]
  show [(3 : ℚ) * (1 / 2) + ((2 : ℚ) * (1 / 2) + ((1 : ℚ) * 1 + ((3 : ℚ) / 5 * (1 / 2) +
      ((1 : ℚ) * (1 / 2) + ((1 : ℚ) / 5 * (1 / 2) + (11 : ℚ) / 10 * (1 / 2)))))),
    (3 : ℚ) * (1 / 2) + ((2 : ℚ) * (1 / 2) + ((1 : ℚ) * 0 + ((3 : ℚ) / 5 * (1 / 2) +
      ((1 : ℚ) * (1 / 2) + ((1 : ℚ) / 5 * (1 / 2) + (11 : ℚ) / 10 * (1 / 2))))))] =
    [(99 : ℚ) / 20, (79 : ℚ) / 20]
  norm_num

theorem twoRow_score_window0 :
    scoreList twoRowTable (some ovWindow0) = [(79 : ℚ) / 20, (79 : ℚ) / 20] := by
  unfold scoreList
  rw [twoRow_priceNorm, twoRow_ratingNorm, twoRow_windowNorm, twoRow_seatsNorm,
    twoRow_durNorm, twoRow_boardNorm, twoRow_dropNorm]
  rw [show mergedGet (some ovWindow0) "price" = 3 from rfl,
    show mergedGet (some ovWindow0) "rating" = 2 from rfl,
    show mergedGet (some ovWindow0) "window" = 0 from rfl,
    show mergedGet (some ovWindow0) "seats" = 3 / 5 from rfl,
    show mergedGet (some ovWindow0) "duration" = 1 from rfl,
    show mergedGet (some ovWindow0) "boarding" = 1 / 5 from rfl,
    show mergedGet (some ovWindow0) "dropping_pref" = 11 / 10 from rfl]
  show [(3 : ℚ) * (1 / 2) + ((2 : ℚ) * (1 / 2) + ((0 : ℚ) * 1 + ((3 : ℚ) / 5 * (1 / 2) +
      ((1 : ℚ) * (1 / 2) + ((1 : ℚ) / 5 * (1 / 2) + (11 : ℚ) / 10 * (1 / 2)))))),
    (3 : ℚ) * (1 / 2) + ((2 : ℚ) * (1 / 2) + ((0 : ℚ) * 0 + ((3 : ℚ) / 5 * (1 / 2) +
      ((1 : ℚ) * (1 / 2) + ((1 : ℚ) / 5 * (1 / 2) + (11 : ℚ) / 10 * (1 / 2))))))] =
    [(79 : ℚ) / 20, (79 : ℚ) / 20]
  norm_num

/-- C2, counterexample: on a table whose two rows differ only in window
seats, the override keyed by the specification name window_seats leaves
every composite score unchanged (the code never reads that key), while
zeroing the weight the code actually reads, keyed window, does change the
scores; so an entry keyed window_seats does not replace the window-seat
criterion weight as the claim states. -/
theorem c2_weight_keys_counterexample :
    scoreList twoRowTable (some ovWindowSeats0) = scoreList twoRowTable none
    ∧ scoreList twoRowTable (some ovWindow0) ≠ scoreList twoRowTable none := by
  constructor
  · exact scoreList_weights_eq twoRowTable fun k hk => by fin_cases hk <;> rfl
  · rw [twoRow_score_window0, twoRow_score_default]
    intro h
    simp only [List.cons.injEq] at h
    have h1 := h.1
    norm_num at h1

/-- C2, amended: the seven criterion keys the code reads are price,
rating, window, seats, duration, boarding and dropping_pref with defaults
3, 2, 1, 0.6, 1, 0.2 and 1.1; an override entry under one of these keys
replaces that default, keys absent from the override keep their default,
and any other key (including the specification names window_seats,
seats_available, boarding_time, dropping_time_preference) has no effect
on the computed scores. -/
theorem c2_weight_keys_amended (df : List RawOffer) (o1 o2 : String → Option ℚ)
    (h : ∀ k ∈ criterionKeys, o1 k = o2 k) :
    scoreList df (some o1) = scoreList df (some o2)
    ∧ (∀ (o : String → Option ℚ) (k : String) (v : ℚ), k ∈ criterionKeys →
        o k = some v → mergedGet (some o) k = v)
    ∧ (∀ (o : String → Option ℚ) (k : String), k ∈ criterionKeys →
        o k = none → mergedGet (some o) k = mergedGet none k)
    ∧ mergedGet none "price" = 3 ∧ mergedGet none "rating" = 2
    ∧ mergedGet none "window" = 1 ∧ mergedGet none "seats" = 3 / 5
    ∧ mergedGet none "duration" = 1 ∧ mergedGet none "boarding" = 1 / 5
    ∧ mergedGet none "dropping_pref" = 11 / 10 := by
  refine ⟨scoreList_weights_eq df fun k hk => ?_, ?_, ?_, rfl, rfl, rfl, rfl, rfl, rfl, rfl⟩
  · show ((o1 k).orElse fun _ => defaultWeights k).getD 1 =
      ((o2 k).orElse fun _ => defaultWeights k).getD 1
    rw [h k hk]
  · intro o k v _ ho
    show ((o k).orElse fun _ => defaultWeights k).getD 1 = v
    rw [ho]
    rfl
  · intro o k _ ho
    show ((o k).orElse fun _ => defaultWeights k).getD 1 = (defaultWeights k).getD 1
    rw [ho]
    rfl

/-- C2, witness for the amended claim at concrete configurations. -/
theorem c2_weight_keys_amended_witness :
    scoreList [] (some ovWindow0) = scoreList [] (some ovWindow0)
    ∧ mergedGet (some ovWindow0) "window" = 0 :=
  ⟨(c2_weight_keys_amended [] ovWindow0 ovWindow0 fun _ _ => rfl).1,
   (c2_weight_keys_amended [] ovWindow0 ovWindow0 fun _ _ => rfl).2.1 ovWindow0 "window" 0
     (by decide) rfl⟩

end VRL
